import Mathlib

/-!
Verification of the Brotli4j encoder JNI wrapper
(`natives/src/main/cpp/encoder_jni.cc`).

The wrapper drives an opaque, externally supplied Brotli encoder engine
through a handle-based push/pull protocol.  We embed the wrapper's control
flow shallowly: the engine (`BrotliEncoderState` and the `BrotliEncoder*`
API calls) is modelled as an abstract state type `σ` together with the
functions the wrapper invokes on it, and each JNI entry point becomes a
Lean function on an explicit `EncoderHandle` state.  JNI environment
services that can fail (global-reference creation, direct-buffer address
resolution, allocation) are modelled as explicit environment records.
-/

set_option autoImplicit false

namespace EncoderJNI

/-- The type `BrotliEncoderOperation`: the three operation tags accepted by
`BrotliEncoderCompressStream`. -/
inductive BrotliEncoderOperation where
  | process
  | flush
  | finish
  deriving DecidableEq

/-- The `switch (operation)` at the top of `nativePush`: tag 0 is PROCESS,
1 is FLUSH, 2 is FINISH, anything else is an error. -/
def decodeOp (operation : Int) : Option BrotliEncoderOperation :=
  if operation = 0 then some BrotliEncoderOperation.process
  else if operation = 1 then some BrotliEncoderOperation.flush
  else if operation = 2 then some BrotliEncoderOperation.finish
  else none

/-- The C conversion of a (sign-extended) integer value to the 64-bit
unsigned `size_t`, as in `handle->input_last = input_length`. -/
def intToSizeT (x : Int) : Nat :=
  (x % (2 : Int) ^ 64).toNat

/-- The opaque Brotli encoder engine, as seen by the wrapper: an abstract
state type `σ` plus the API functions the wrapper calls on it.
`compressStream s op input` returns the success flag, the number of input
bytes left unconsumed (the value `BrotliEncoderCompressStream` stores back
into `in_size`), and the updated engine state; the wrapper always passes a
zero-length output buffer, so produced bytes stay inside the engine until
`takeOutput`. -/
structure Engine (σ : Type) where
  compressStream : σ → BrotliEncoderOperation → List Nat → Bool × Nat × σ
  hasMoreOutput : σ → Bool
  isFinished : σ → Bool
  takeOutput : σ → List Nat × σ

/-- The Brotli stream API contract: `BrotliEncoderCompressStream` consumes a
prefix of the offered input, i.e. the residual `in_size` it reports never
exceeds the number of bytes offered. -/
def EngineContract {σ : Type} (eng : Engine σ) : Prop :=
  ∀ (s : σ) (op : BrotliEncoderOperation) (input : List Nat),
    (eng.compressStream s op input).2.1 ≤ input.length

/-- The `EncoderHandle` struct persisted between calls.  `dictionary_refs`
models the filled prefix of the fixed 15-slot `jobject dictionary_refs[15]`
array (slot `i` is written exactly when the `i`-th attach reaches the append
step), `input_start` the scratch byte buffer contents, and
`input_offset`/`input_last` the two `size_t` window indices. -/
structure EncoderHandle (σ : Type) where
  state : σ
  dictionary_refs : List Nat
  dictionary_count : Nat
  input_start : List Nat
  input_offset : Nat
  input_last : Nat
  deriving DecidableEq

/-- The window invariant claimed by the spec: `input_offset ≤ input_last`
and `input_last` never exceeds the scratch-buffer capacity.  (The lower
bound `0 ≤ input_offset` is inherent to the unsigned representation.) -/
def handleInv {σ : Type} (h : EncoderHandle σ) : Prop :=
  h.input_offset ≤ h.input_last ∧ h.input_last ≤ h.input_start.length

instance {σ : Type} (h : EncoderHandle σ) : Decidable (handleInv h) := by
  unfold handleInv; infer_instance

/-- The three status booleans `nativePush` writes into `context[2..4]` on
success. -/
structure PushFlags where
  hasMoreOutput : Bool
  hasRemainingInput : Bool
  isFinished : Bool
  deriving DecidableEq

/-- Result of `nativePush`: `flags = none` models the error path
(`context[1] = 0`, the other slots untouched); `flags = some _` models the
success path (`context[1] = 1` plus the three status booleans). -/
structure PushResult (σ : Type) where
  flags : Option PushFlags
  handle : EncoderHandle σ
  deriving DecidableEq

/-- The window update performed by `nativePush` when `input_length != 0`
(after the pending-data check): `input_offset = 0`,
`input_last = input_length` (a `jint` assigned to a `size_t`). -/
def pushWindowReset {σ : Type} (h : EncoderHandle σ) (input_length : Int) :
    EncoderHandle σ :=
  if input_length ≠ 0 then
    { h with input_offset := 0, input_last := intToSizeT input_length }
  else h

/-- The `size_t` subtraction `a - b` for operands below `2^64`: it wraps around
when `b > a`.  (`nativePush` computes `input_last - in_size` this way.) -/
def sizeTSub (a b : Nat) : Nat :=
  if b ≤ a then a - b else a + 2 ^ 64 - b

/-- The byte range handed to `BrotliEncoderCompressStream`:
`in = input_start + input_offset`, `in_size = input_last - input_offset`. -/
def pendingWindow {σ : Type} (h : EncoderHandle σ) : List Nat :=
  (h.input_start.drop h.input_offset).take (h.input_last - h.input_offset)

/-- The entry point `Java_com_..._EncoderJNI_nativePush`.  `operation` is the `jint` read
from `context[1]`, `input_length` the `jint` parameter.  Control flow of the
source: decode the operation tag (unknown tag: error, state untouched); if
`input_length != 0`, fail when unconsumed data remains
(`input_offset < input_last`), otherwise reset the window to
`[0, input_length)`; then call `BrotliEncoderCompressStream` on the pending
window `[input_offset, input_last)` of the scratch buffer, store
`input_last - in_size` into `input_offset`, and report the status flags only
when the engine call succeeded. -/
def nativePush {σ : Type} (eng : Engine σ) (h : EncoderHandle σ)
    (operation input_length : Int) : PushResult σ :=
  match decodeOp operation with
  | none => { flags := none, handle := h }
  | some op =>
    if input_length ≠ 0 ∧ h.input_offset < h.input_last then
      { flags := none, handle := h }
    else
      let h1 := pushWindowReset h input_length
      let r := eng.compressStream h1.state op (pendingWindow h1)
      let h2 := { h1 with
        state := r.2.2,
        input_offset := sizeTSub h1.input_last r.2.1 }
      { flags := if r.1 then
          some { hasMoreOutput := eng.hasMoreOutput r.2.2,
                 hasRemainingInput := decide (h2.input_offset ≠ h2.input_last),
                 isFinished := eng.isFinished r.2.2 }
        else none,
        handle := h2 }

/-- Result of `nativePull`: the returned direct byte-buffer view over the
engine's output, the unconditional success flag `context[1]`, and the three
recomputed status booleans. -/
structure PullResult (σ : Type) where
  success : Bool
  output : List Nat
  hasMoreOutput : Bool
  hasRemainingInput : Bool
  isFinished : Bool
  handle : EncoderHandle σ
  deriving DecidableEq

/-- The entry point `Java_com_..._EncoderJNI_nativePull`: call `BrotliEncoderTakeOutput`,
set `context[1] = 1` unconditionally, recompute the three status booleans
from the post-take engine state and the input window, and return the output
view. -/
def nativePull {σ : Type} (eng : Engine σ) (h : EncoderHandle σ) : PullResult σ :=
  let r := eng.takeOutput h.state
  let h1 := { h with state := r.2 }
  { success := true,
    output := r.1,
    hasMoreOutput := eng.hasMoreOutput r.2,
    hasRemainingInput := decide (h1.input_offset ≠ h1.input_last),
    isFinished := eng.isFinished r.2,
    handle := h1 }

/-- The three resources `nativeCreate` allocates: the `EncoderHandle`
struct itself, the `uint8_t[input_size]` scratch buffer, and the
`BrotliEncoderState` engine instance. -/
inductive Resource where
  | handleStruct
  | inputBuffer
  | engineState
  deriving DecidableEq

/-- Environment for `nativeCreate`: whether `new (std::nothrow)
EncoderHandle()` succeeds, whether `new (std::nothrow) uint8_t[n]` succeeds,
the result of `BrotliEncoderCreateInstance`, and the (status-ignored)
`BrotliEncoderSetParameter` call, taking the parameter id and value. -/
structure CreateEnv (σ : Type) where
  allocHandle : Bool
  allocBuffer : Bool
  createInstance : Option σ
  setParameter : σ → Nat → Int → σ

/-- Brotli parameter ids from `encode.h`. -/
def BROTLI_PARAM_MODE : Nat := 0

def BROTLI_PARAM_QUALITY : Nat := 1

def BROTLI_PARAM_LGWIN : Nat := 2

/-- Result of `nativeCreate`: the out-cookie written to `context[0]` (the
handle address, modelled as 1 when non-null, 0 on failure), the returned
direct-buffer view over the scratch buffer (its capacity, or `none` for the
null return), the created handle, and — to reason about leaks — the lists of
resources allocated and released during the call. -/
structure CreateResult (σ : Type) where
  cookie : Nat
  view : Option Nat
  handle : Option (EncoderHandle σ)
  allocated : List Resource
  freed : List Resource

/-- The entry point `Java_com_..._EncoderJNI_nativeCreate`.  `input_size` is the `size_t`
read from `context[1]`, `quality`/`lgwin`/`mode` the `int`s from
`context[2..4]`.  The source's `ok` chain: allocate the handle struct (its
fields value-initialized, then explicitly zeroed); fail if `input_size` is
0, else allocate the scratch buffer; create the engine instance; apply each
non-negative parameter (return status ignored); on success publish the
cookie and the buffer view, on failure free the buffer (if allocated) and
the handle struct and write cookie 0 / return null. -/
def nativeCreate {σ : Type} (env : CreateEnv σ) (input_size : Nat)
    (quality lgwin mode : Int) : CreateResult σ :=
  if ¬env.allocHandle then
    { cookie := 0, view := none, handle := none, allocated := [], freed := [] }
  else if input_size = 0 then
    { cookie := 0, view := none, handle := none,
      allocated := [Resource.handleStruct], freed := [Resource.handleStruct] }
  else if ¬env.allocBuffer then
    { cookie := 0, view := none, handle := none,
      allocated := [Resource.handleStruct], freed := [Resource.handleStruct] }
  else
    match env.createInstance with
    | none =>
      { cookie := 0, view := none, handle := none,
        allocated := [Resource.handleStruct, Resource.inputBuffer],
        freed := [Resource.inputBuffer, Resource.handleStruct] }
    | some s0 =>
      let s1 := if quality ≥ 0 then env.setParameter s0 BROTLI_PARAM_QUALITY quality else s0
      let s2 := if lgwin ≥ 0 then env.setParameter s1 BROTLI_PARAM_LGWIN lgwin else s1
      let s3 := if mode ≥ 0 then env.setParameter s2 BROTLI_PARAM_MODE mode else s2
      { cookie := 1,
        view := some input_size,
        handle := some
          { state := s3, dictionary_refs := [], dictionary_count := 0,
            input_start := List.replicate input_size 0,
            input_offset := 0, input_last := 0 },
        allocated := [Resource.handleStruct, Resource.inputBuffer, Resource.engineState],
        freed := [] }

/-- Environment for `nativeAttachDictionary`: `NewGlobalRef` (may return
null), `GetDirectBufferAddress` on the retained reference (may return
null), and `BrotliEncoderAttachPreparedDictionary`, which reports a success
flag and may update the engine state. -/
structure AttachEnv (σ : Type) where
  newGlobalRef : Nat → Option Nat
  getDirectBufferAddress : Nat → Option Nat
  attach : σ → Nat → Bool × σ

/-- The entry point `Java_com_..._EncoderJNI_nativeAttachDictionary`.  The source's `ok`
chain: fail on a null dictionary; fail when `dictionary_count >= 15`;
retain a global reference (fail if null); append the reference at index
`dictionary_count` and increment the count; resolve the buffer address
(fail if null); attach to the engine.  Note that the append and increment
happen before the last two fallible steps. -/
def nativeAttachDictionary {σ : Type} (env : AttachEnv σ) (h : EncoderHandle σ)
    (dictionary : Option Nat) : Bool × EncoderHandle σ :=
  match dictionary with
  | none => (false, h)
  | some d =>
    if h.dictionary_count ≥ 15 then (false, h)
    else
      match env.newGlobalRef d with
      | none => (false, h)
      | some ref =>
        let h1 := { h with dictionary_refs := h.dictionary_refs ++ [ref],
                           dictionary_count := h.dictionary_count + 1 }
        match env.getDirectBufferAddress ref with
        | none => (false, h1)
        | some addr =>
          let r := env.attach h1.state addr
          (r.1, { h1 with state := r.2 })

/-- The entry point `Java_com_..._EncoderJNI_nativeDestroy` deletes the global references
`dictionary_refs[i]` for `i < dictionary_count` (besides destroying the
engine instance and freeing the buffer and the handle struct); we model the
sequence of released dictionary references. -/
def nativeDestroy {σ : Type} (h : EncoderHandle σ) : List Nat :=
  h.dictionary_refs.take h.dictionary_count

/-- The constant `BROTLI_MAX_QUALITY` from `encode.h`. -/
def BROTLI_MAX_QUALITY : Nat := 11

/-- Environment for `nativePrepareDictionary`: `GetDirectBufferAddress` and
`GetDirectBufferCapacity` on the raw-bytes buffer, and
`BrotliEncoderPrepareDictionary`, taking the dictionary type tag, the size,
the address and the quality (the alloc-function arguments are always null
in the source) and returning the prepared-dictionary pointer or null. -/
structure PrepareEnv where
  getDirectBufferAddress : Nat → Option Nat
  getDirectBufferCapacity : Nat → Int
  prepare : Int → Nat → Nat → Nat → Option Nat

/-- The entry point `Java_com_..._EncoderJNI_nativePrepareDictionary`: fail on a null
dictionary reference, a null buffer address, or a capacity outside
`(0, 2^30)`; otherwise call `BrotliEncoderPrepareDictionary` at
`BROTLI_MAX_QUALITY` and wrap the non-null result in a 4-byte direct-buffer
view (pointer, capacity 4). -/
def nativePrepareDictionary (env : PrepareEnv) (dictionary : Option Nat)
    (type : Int) : Option (Nat × Nat) :=
  match dictionary with
  | none => none
  | some d =>
    match env.getDirectBufferAddress d with
    | none => none
    | some addr =>
      let capacity := env.getDirectBufferCapacity d
      if capacity ≤ 0 ∨ capacity ≥ 2 ^ 30 then none
      else
        match env.prepare type capacity.toNat addr BROTLI_MAX_QUALITY with
        | none => none
        | some p => some (p, 4)

/-- A call trace against one handle: the operations of the protocol that
mutate handle state after creation. -/
inductive EncOp where
  | push (operation input_length : Int)
  | pull
  | attach (dictionary : Option Nat)
  deriving DecidableEq

/-- Run a sequence of Push/Pull/AttachDictionary calls against a handle,
threading the handle state. -/
def runOps {σ : Type} (eng : Engine σ) (aenv : AttachEnv σ)
    (h : EncoderHandle σ) : List EncOp → EncoderHandle σ
  | [] => h
  | o :: rest =>
    let h1 := match o with
      | EncOp.push operation input_length => (nativePush eng h operation input_length).handle
      | EncOp.pull => (nativePull eng h).handle
      | EncOp.attach d => (nativeAttachDictionary aenv h d).2
    runOps eng aenv h1 rest

/-- The per-operation side condition under which the window invariant is
preserved: a Push's `input_length`, after the `jint` → `size_t` conversion,
must not exceed the scratch capacity `C`. -/
def opOK (C : Nat) : EncOp → Prop
  | EncOp.push _ input_length => intToSizeT input_length ≤ C
  | EncOp.pull => True
  | EncOp.attach _ => True

/-- Attach a list of dictionaries one call at a time, collecting the
per-call success flags. -/
def attachMany {σ : Type} (env : AttachEnv σ) (h : EncoderHandle σ) :
    List (Option Nat) → List Bool × EncoderHandle σ
  | [] => ([], h)
  | d :: rest =>
    let r := nativeAttachDictionary env h d
    let rr := attachMany env r.2 rest
    (r.1 :: rr.1, rr.2)

/-- A concrete engine used for witnesses: every compress step succeeds and
consumes all offered input, no output is ever pending, the stream is never
finished. -/
def idleEngine : Engine Unit :=
  { compressStream := fun s _ _ => (true, 0, s),
    hasMoreOutput := fun _ => false,
    isFinished := fun _ => false,
    takeOutput := fun s => ([], s) }

/-- A concrete attach environment in which every JNI and engine call
succeeds. -/
def okAttachEnv : AttachEnv Unit :=
  { newGlobalRef := fun d => some d,
    getDirectBufferAddress := fun r => some r,
    attach := fun s _ => (true, s) }

/-- A concrete attach environment whose buffer-address resolution always
fails. -/
def noAddrAttachEnv : AttachEnv Unit :=
  { newGlobalRef := fun d => some d,
    getDirectBufferAddress := fun _ => none,
    attach := fun s _ => (true, s) }

/-- A concrete create environment in which every allocation succeeds. -/
def okCreateEnv : CreateEnv Unit :=
  { allocHandle := true, allocBuffer := true, createInstance := some (),
    setParameter := fun s _ _ => s }

/-- A concrete create environment whose engine-instance creation fails. -/
def noEngineCreateEnv : CreateEnv Unit :=
  { allocHandle := true, allocBuffer := true, createInstance := none,
    setParameter := fun s _ _ => s }

/-- A concrete prepare environment: address resolution succeeds, the
capacity is the buffer id itself, and preparation returns pointer 7. -/
def okPrepareEnv : PrepareEnv :=
  { getDirectBufferAddress := fun d => some d,
    getDirectBufferCapacity := fun d => (d : Int),
    prepare := fun _ _ _ _ => some 7 }

/-- A handle with scratch capacity 1 and a fully drained window, as produced
by a successful Create with `input_size = 1`. -/
def handleCap1 : EncoderHandle Unit :=
  { state := (), dictionary_refs := [], dictionary_count := 0,
    input_start := [0], input_offset := 0, input_last := 0 }

/-- A handle with scratch capacity 2 and a fully drained window. -/
def handleCap2 : EncoderHandle Unit :=
  { state := (), dictionary_refs := [], dictionary_count := 0,
    input_start := [0, 0], input_offset := 0, input_last := 0 }

/-- A handle with pending unconsumed input: window `[0, 1)` of a 2-byte
scratch buffer. -/
def handlePending : EncoderHandle Unit :=
  { state := (), dictionary_refs := [], dictionary_count := 0,
    input_start := [0, 0], input_offset := 0, input_last := 1 }

/-- A handle already holding 15 attached dictionary references. -/
def handleFull15 : EncoderHandle Unit :=
  { state := (), dictionary_refs := List.replicate 15 1, dictionary_count := 15,
    input_start := [0], input_offset := 0, input_last := 0 }

/-! ## Helper lemmas -/

lemma intToSizeT_of_nonneg {x : Int} (hnneg : 0 ≤ x) (hrange : x < 2 ^ 64) :
    intToSizeT x = x.toNat := by
  unfold intToSizeT
  rw [Int.emod_eq_of_lt hnneg (by exact_mod_cast hrange)]

lemma pendingWindow_length {σ : Type} (h : EncoderHandle σ) (hinv : handleInv h) :
    (pendingWindow h).length = h.input_last - h.input_offset := by
  obtain ⟨h1, h2⟩ := hinv
  simp only [pendingWindow, List.length_take, List.length_drop]
  omega

lemma sizeTSub_of_le {a b : Nat} (h : b ≤ a) : sizeTSub a b = a - b :=
  if_pos h

lemma sizeTSub_le_of_le {a b : Nat} (h : b ≤ a) : sizeTSub a b ≤ a := by
  rw [sizeTSub_of_le h]
  exact Nat.sub_le a b

lemma pushWindowReset_input_start {σ : Type} (h : EncoderHandle σ)
    (input_length : Int) :
    (pushWindowReset h input_length).input_start = h.input_start := by
  unfold pushWindowReset
  split <;> rfl

lemma pushWindowReset_inv {σ : Type} (h : EncoderHandle σ) (input_length : Int)
    (hinv : handleInv h)
    (hlen : intToSizeT input_length ≤ h.input_start.length) :
    handleInv (pushWindowReset h input_length) := by
  obtain ⟨h1, h2⟩ := hinv
  unfold pushWindowReset handleInv
  split
  · exact ⟨Nat.zero_le _, hlen⟩
  · exact ⟨h1, h2⟩

/-- In the main branch of `nativePush` (valid operation tag, pending-data
check passed), the result is computed from the reset window and one
`compressStream` call. -/
lemma nativePush_main {σ : Type} (eng : Engine σ) (h : EncoderHandle σ)
    (operation input_length : Int) (op : BrotliEncoderOperation)
    (hop : decodeOp operation = some op)
    (hguard : ¬(input_length ≠ 0 ∧ h.input_offset < h.input_last)) :
    nativePush eng h operation input_length =
      { flags :=
          if (eng.compressStream (pushWindowReset h input_length).state op
              (pendingWindow (pushWindowReset h input_length))).1 then
            some { hasMoreOutput := eng.hasMoreOutput
                     (eng.compressStream (pushWindowReset h input_length).state op
                       (pendingWindow (pushWindowReset h input_length))).2.2,
                   hasRemainingInput := decide
                     (sizeTSub (pushWindowReset h input_length).input_last
                        (eng.compressStream (pushWindowReset h input_length).state op
                          (pendingWindow (pushWindowReset h input_length))).2.1 ≠
                       (pushWindowReset h input_length).input_last),
                   isFinished := eng.isFinished
                     (eng.compressStream (pushWindowReset h input_length).state op
                       (pendingWindow (pushWindowReset h input_length))).2.2 }
          else none,
        handle := { pushWindowReset h input_length with
          state := (eng.compressStream (pushWindowReset h input_length).state op
            (pendingWindow (pushWindowReset h input_length))).2.2,
          input_offset := sizeTSub (pushWindowReset h input_length).input_last
            (eng.compressStream (pushWindowReset h input_length).state op
              (pendingWindow (pushWindowReset h input_length))).2.1 } } := by
  unfold nativePush
  rw [hop]
  simp only [hguard, if_false]

/-- On both error paths of `nativePush` (bad tag, or new input while data is
pending) the call reports failure and returns the handle unchanged. -/
lemma nativePush_error {σ : Type} (eng : Engine σ) (h : EncoderHandle σ)
    (operation input_length : Int)
    (herr : decodeOp operation = none ∨
      (input_length ≠ 0 ∧ h.input_offset < h.input_last)) :
    nativePush eng h operation input_length = { flags := none, handle := h } := by
  unfold nativePush
  rcases herr with hop | hguard
  · rw [hop]
  · cases hop : decodeOp operation with
    | none => rfl
    | some op => exact if_pos hguard

/-! ## C9 -/

/-- C9: a Push whose operation tag is none of Process (0), Flush (1),
Finish (2) fails immediately (success flag false) and mutates no handle
state. -/
theorem push_invalid_operation_fails_unchanged {σ : Type} (eng : Engine σ)
    (h : EncoderHandle σ) (operation input_length : Int)
    (h0 : operation ≠ 0) (h1 : operation ≠ 1) (h2 : operation ≠ 2) :
    nativePush eng h operation input_length = { flags := none, handle := h } :=
  nativePush_error eng h operation input_length
    (Or.inl (by unfold decodeOp; simp [h0, h1, h2]))

/-- Witness for C9 at operation tag 3. -/
theorem push_invalid_operation_fails_unchanged_witness :
    nativePush idleEngine handleCap1 3 1 = { flags := none, handle := handleCap1 } :=
  push_invalid_operation_fails_unchanged idleEngine handleCap1 3 1
    (by decide) (by decide) (by decide)

/-! ## C2 -/

/-- C2: a Push supplying new input (`input_length ≠ 0`) while the pending
window is not fully consumed fails and leaves the handle unchanged, so a
subsequent Pull returns exactly what it would have returned before the
failed call. -/
theorem push_pending_input_fails_unchanged {σ : Type} (eng : Engine σ)
    (h : EncoderHandle σ) (operation input_length : Int)
    (hlen : input_length ≠ 0)
    (hle : h.input_offset ≤ h.input_last)
    (hne : h.input_offset ≠ h.input_last) :
    (nativePush eng h operation input_length).flags = none ∧
    (nativePush eng h operation input_length).handle = h ∧
    nativePull eng (nativePush eng h operation input_length).handle =
      nativePull eng h := by
  have hlt : h.input_offset < h.input_last := lt_of_le_of_ne hle hne
  have key := nativePush_error eng h operation input_length (Or.inr ⟨hlen, hlt⟩)
  rw [key]
  exact ⟨rfl, rfl, rfl⟩

/-- Witness for C2: a handle with one pending byte rejects new input. -/
theorem push_pending_input_fails_unchanged_witness :
    (nativePush idleEngine handlePending 0 1).flags = none ∧
    (nativePush idleEngine handlePending 0 1).handle = handlePending ∧
    nativePull idleEngine (nativePush idleEngine handlePending 0 1).handle =
      nativePull idleEngine handlePending :=
  push_pending_input_fails_unchanged idleEngine handlePending 0 1
    (by decide) (by decide) (by decide)

/-! ## C7 -/

/-- C7: Pull always succeeds (the success flag is set unconditionally),
returns the output the engine currently holds, and recomputes the three
status booleans from the post-take engine state and the input window. -/
theorem pull_always_succeeds {σ : Type} (eng : Engine σ) (h : EncoderHandle σ) :
    (nativePull eng h).success = true ∧
    (nativePull eng h).output = (eng.takeOutput h.state).1 ∧
    (nativePull eng h).hasMoreOutput =
      eng.hasMoreOutput (eng.takeOutput h.state).2 ∧
    (nativePull eng h).hasRemainingInput =
      decide (h.input_offset ≠ h.input_last) ∧
    (nativePull eng h).isFinished = eng.isFinished (eng.takeOutput h.state).2 := by
  unfold nativePull
  exact ⟨rfl, rfl, rfl, rfl, rfl⟩

/-! ## C1 -/

/-- C1: in a Push that passes the protocol checks (valid tag; new input only
on a drained window), supplying `input_length ≠ 0` first resets the window
to `input_offset = 0`, `input_last = input_length`; the engine is then fed
exactly the byte range `[input_offset, input_limit)` of the scratch buffer
(`pendingWindow h1`) with the decoded operation; `input_offset` advances by
exactly the number of bytes the engine consumed; and on engine success the
call reports success together with `hasMoreOutput` (engine has output),
`hasRemainingInput` (`input_offset ≠ input_last` after the step) and
`isFinished` (engine reports the stream finished). -/
theorem push_feeds_pending_window {σ : Type} (eng : Engine σ)
    (hcontract : EngineContract eng) (h h1 : EncoderHandle σ)
    (operation input_length : Int) (op : BrotliEncoderOperation)
    (r : Bool × Nat × σ)
    (hop : decodeOp operation = some op)
    (hnneg : 0 ≤ input_length) (hrange : input_length < 2 ^ 64)
    (hcap : input_length.toNat ≤ h.input_start.length)
    (hinv : handleInv h)
    (hpass : input_length = 0 ∨ h.input_offset = h.input_last)
    (hh1 : h1 = pushWindowReset h input_length)
    (hr : r = eng.compressStream h1.state op (pendingWindow h1)) :
    (input_length ≠ 0 → h1.input_offset = 0 ∧ h1.input_last = input_length.toNat) ∧
    nativePush eng h operation input_length =
      { flags := if r.1 then
          some { hasMoreOutput := eng.hasMoreOutput r.2.2,
                 hasRemainingInput := decide (h1.input_last - r.2.1 ≠ h1.input_last),
                 isFinished := eng.isFinished r.2.2 }
        else none,
        handle := { h1 with
          state := r.2.2,
          input_offset := h1.input_last - r.2.1 } } ∧
    (nativePush eng h operation input_length).handle.input_offset =
      h1.input_offset + ((pendingWindow h1).length - r.2.1) := by
  have hsz : intToSizeT input_length = input_length.toNat :=
    intToSizeT_of_nonneg hnneg hrange
  have hguard : ¬(input_length ≠ 0 ∧ h.input_offset < h.input_last) := by
    rcases hpass with h0 | he
    · simp [h0]
    · simp [he]
  have hmain := nativePush_main eng h operation input_length op hop hguard
  have hinv1 : handleInv h1 := by
    rw [hh1]
    exact pushWindowReset_inv h input_length hinv (by rw [hsz]; exact hcap)
  have hflen : (pendingWindow h1).length = h1.input_last - h1.input_offset :=
    pendingWindow_length h1 hinv1
  have hrem : r.2.1 ≤ (pendingWindow h1).length := by
    rw [hr]
    exact hcontract h1.state op (pendingWindow h1)
  have hle2 : r.2.1 ≤ h1.input_last := by
    obtain ⟨hA, hB⟩ := hinv1
    omega
  have hss : sizeTSub h1.input_last r.2.1 = h1.input_last - r.2.1 :=
    sizeTSub_of_le hle2
  refine ⟨?_, ?_, ?_⟩
  · intro hl
    rw [hh1]
    unfold pushWindowReset
    rw [if_pos hl]
    exact ⟨rfl, hsz⟩
  · rw [hmain, ← hh1, ← hr, hss]
  · rw [hmain, ← hh1, ← hr]
    show sizeTSub h1.input_last r.2.1 =
      h1.input_offset + ((pendingWindow h1).length - r.2.1)
    rw [hss]
    obtain ⟨hA, hB⟩ := hinv1
    omega

/-- Witness for C1: a drained 2-byte handle, Push(Process, 2) against the
all-consuming engine. -/
theorem push_feeds_pending_window_witness :
    nativePush idleEngine handleCap2 0 2 =
      { flags := some { hasMoreOutput := false, hasRemainingInput := false,
                        isFinished := false },
        handle := { state := (), dictionary_refs := [], dictionary_count := 0,
                    input_start := [0, 0], input_offset := 2, input_last := 2 } } := by
  have hw := push_feeds_pending_window idleEngine
    (fun _ _ input => Nat.zero_le input.length) handleCap2
    { state := (), dictionary_refs := [], dictionary_count := 0,
      input_start := [0, 0], input_offset := 0, input_last := 2 }
    0 2 BrotliEncoderOperation.process (true, 0, ())
    rfl (by decide) (by decide) (by decide) (by decide)
    (Or.inr rfl) (by decide) (by decide)
  have h2 := hw.2.1
  simpa using h2

/-! ## C5 -/

/-- C5: with a positive requested capacity and all allocations succeeding,
Create succeeds (non-zero cookie) and returns a writable input-buffer view
of exactly that many bytes; with requested capacity 0 it fails: cookie 0
and a null view, no handle. -/
theorem create_capacity_behavior {σ : Type} (env : CreateEnv σ)
    (input_size : Nat) (quality lgwin mode : Int) :
    (env.allocHandle = true → env.allocBuffer = true →
      env.createInstance.isSome → 0 < input_size →
      (nativeCreate env input_size quality lgwin mode).cookie ≠ 0 ∧
      (nativeCreate env input_size quality lgwin mode).view = some input_size ∧
      (nativeCreate env input_size quality lgwin mode).handle.isSome) ∧
    (input_size = 0 →
      (nativeCreate env input_size quality lgwin mode).cookie = 0 ∧
      (nativeCreate env input_size quality lgwin mode).view = none ∧
      (nativeCreate env input_size quality lgwin mode).handle = none) := by
  constructor
  · intro hH hB hI hpos
    obtain ⟨s0, hs0⟩ := Option.isSome_iff_exists.mp hI
    have h0 : input_size ≠ 0 := Nat.pos_iff_ne_zero.mp hpos
    simp [nativeCreate, hH, hB, hs0, h0]
  · intro h0
    subst h0
    by_cases hH : env.allocHandle = true <;> simp [nativeCreate, hH]

/-- Witness for C5 at capacities 1 and 0. -/
theorem create_capacity_behavior_witness :
    (nativeCreate okCreateEnv 1 (-1) (-1) (-1)).view = some 1 ∧
    (nativeCreate okCreateEnv 0 (-1) (-1) (-1)).cookie = 0 :=
  ⟨((create_capacity_behavior okCreateEnv 1 (-1) (-1) (-1)).1
      rfl rfl rfl (by decide)).2.1,
   ((create_capacity_behavior okCreateEnv 0 (-1) (-1) (-1)).2 rfl).1⟩

/-! ## C6 -/

/-- C6: if any allocation in Create fails (handle struct, scratch buffer, or
engine instance), the call reports failure — cookie 0, null view, no handle
— and releases exactly the partial allocations made so far (no leak, no
double free). -/
theorem create_failure_releases_partial_allocations {σ : Type}
    (env : CreateEnv σ) (input_size : Nat) (quality lgwin mode : Int)
    (hfail : env.allocHandle = false ∨ env.allocBuffer = false ∨
      env.createInstance = none) :
    (nativeCreate env input_size quality lgwin mode).cookie = 0 ∧
    (nativeCreate env input_size quality lgwin mode).view = none ∧
    (nativeCreate env input_size quality lgwin mode).handle = none ∧
    ∀ r : Resource,
      r ∈ (nativeCreate env input_size quality lgwin mode).allocated ↔
        r ∈ (nativeCreate env input_size quality lgwin mode).freed := by
  by_cases hH : env.allocHandle = true
  · by_cases h0 : input_size = 0
    · simp [nativeCreate, hH, h0]
    · by_cases hB : env.allocBuffer = true
      · have hI : env.createInstance = none := by
          rcases hfail with hx | hx | hx
          · rw [hH] at hx; cases hx
          · rw [hB] at hx; cases hx
          · exact hx
        have key : nativeCreate env input_size quality lgwin mode =
            { cookie := 0, view := none, handle := none,
              allocated := [Resource.handleStruct, Resource.inputBuffer],
              freed := [Resource.inputBuffer, Resource.handleStruct] } := by
          simp [nativeCreate, hH, h0, hB, hI]
        rw [key]
        refine ⟨rfl, rfl, rfl, ?_⟩
        intro r
        simp only [List.mem_cons, List.not_mem_nil, or_false]
        tauto
      · simp [nativeCreate, hH, h0, hB]
  · simp [nativeCreate, hH]

/-- Witness for C6: engine-instance creation fails at capacity 1. -/
theorem create_failure_releases_partial_allocations_witness :
    (nativeCreate noEngineCreateEnv 1 (-1) (-1) (-1)).cookie = 0 ∧
    (nativeCreate noEngineCreateEnv 1 (-1) (-1) (-1)).handle = none :=
  ⟨(create_failure_releases_partial_allocations noEngineCreateEnv 1
      (-1) (-1) (-1) (Or.inr (Or.inr rfl))).1,
   (create_failure_releases_partial_allocations noEngineCreateEnv 1
      (-1) (-1) (-1) (Or.inr (Or.inr rfl))).2.2.1⟩

/-! ## C8 -/

/-- C8: PrepareDictionary fails (returns no handle) when the raw-bytes
reference is absent or its capacity is at most 0 or at least `2^30`; for
every capacity in `[1, 2^30)` with a resolvable buffer address it returns
exactly the (4-byte view over the) result of the engine's prepare call at
`BROTLI_MAX_QUALITY`, independent of any encoder's quality setting. -/
theorem prepare_dictionary_bounds (env : PrepareEnv) (type : Int) :
    nativePrepareDictionary env none type = none ∧
    (∀ d : Nat, env.getDirectBufferCapacity d ≤ 0 →
      nativePrepareDictionary env (some d) type = none) ∧
    (∀ d : Nat, 2 ^ 30 ≤ env.getDirectBufferCapacity d →
      nativePrepareDictionary env (some d) type = none) ∧
    (∀ d addr : Nat, env.getDirectBufferAddress d = some addr →
      1 ≤ env.getDirectBufferCapacity d →
      env.getDirectBufferCapacity d < 2 ^ 30 →
      nativePrepareDictionary env (some d) type =
        Option.map (fun p => (p, 4))
          (env.prepare type (env.getDirectBufferCapacity d).toNat addr
            BROTLI_MAX_QUALITY)) := by
  refine ⟨rfl, ?_, ?_, ?_⟩
  · intro d hc
    cases ha : env.getDirectBufferAddress d with
    | none => simp [nativePrepareDictionary, ha]
    | some addr =>
      simp only [nativePrepareDictionary, ha, if_pos (Or.inl hc)]
  · intro d hc
    cases ha : env.getDirectBufferAddress d with
    | none => simp [nativePrepareDictionary, ha]
    | some addr =>
      simp only [nativePrepareDictionary, ha,
        if_pos (Or.inr hc : env.getDirectBufferCapacity d ≤ 0 ∨
          env.getDirectBufferCapacity d ≥ 2 ^ 30)]
  · intro d addr ha h1 h2
    have hnot : ¬(env.getDirectBufferCapacity d ≤ 0 ∨
        env.getDirectBufferCapacity d ≥ 2 ^ 30) := by omega
    simp only [nativePrepareDictionary, ha, if_neg hnot]
    cases env.prepare type (env.getDirectBufferCapacity d).toNat addr
        BROTLI_MAX_QUALITY <;> rfl

/-- Witness for C8: absent reference fails; capacity 5 prepares. -/
theorem prepare_dictionary_bounds_witness :
    nativePrepareDictionary okPrepareEnv none 0 = none ∧
    nativePrepareDictionary okPrepareEnv (some 5) 0 = some (7, 4) := by
  refine ⟨(prepare_dictionary_bounds okPrepareEnv 0).1, ?_⟩
  have hp := (prepare_dictionary_bounds okPrepareEnv 0).2.2.2 5 5 rfl
    (by decide) (by decide)
  simpa [okPrepareEnv] using hp

/-! ## C4 -/

/-- C4: a handle's dictionary count never exceeds 15: one attach preserves
`dictionary_count ≤ 15`; an attach made while the handle already holds 15
dictionaries fails and leaves the handle unchanged; and 15 consecutive
attaches on a fresh handle can all succeed (here against an
always-succeeding environment), ending with count 15. -/
theorem dictionary_count_capped_at_fifteen {σ : Type} (env : AttachEnv σ)
    (h : EncoderHandle σ) (d : Option Nat)
    (hle : h.dictionary_count ≤ 15) :
    (nativeAttachDictionary env h d).2.dictionary_count ≤ 15 ∧
    (h.dictionary_count = 15 → nativeAttachDictionary env h d = (false, h)) ∧
    ((attachMany okAttachEnv handleCap1 (List.replicate 15 (some 1))).1 =
        List.replicate 15 true ∧
      (attachMany okAttachEnv handleCap1
        (List.replicate 15 (some 1))).2.dictionary_count = 15) := by
  refine ⟨?_, ?_, by decide⟩
  · cases d with
    | none => exact hle
    | some dd =>
      by_cases hc : h.dictionary_count ≥ 15
      · simpa [nativeAttachDictionary, hc] using hle
      · cases hr : env.newGlobalRef dd with
        | none => simpa [nativeAttachDictionary, hc, hr] using hle
        | some ref =>
          cases haddr : env.getDirectBufferAddress ref with
          | none =>
            simp only [nativeAttachDictionary, hc, if_false, hr, haddr]
            omega
          | some addr =>
            simp only [nativeAttachDictionary, hc, if_false, hr, haddr]
            omega
  · intro h15
    cases d with
    | none => rfl
    | some dd =>
      have hc : h.dictionary_count ≥ 15 := le_of_eq h15.symm
      simp [nativeAttachDictionary, hc]

/-- Witness for C4: an attach on a handle already holding 15 dictionaries
fails and mutates nothing. -/
theorem dictionary_count_capped_at_fifteen_witness :
    nativeAttachDictionary okAttachEnv handleFull15 (some 1) =
      (false, handleFull15) :=
  (dictionary_count_capped_at_fifteen okAttachEnv handleFull15 (some 1)
    (by decide)).2.1 (by decide)

/-! ## C10 -/

/-- C10: once an attach passes the null check and the capacity check and the
global reference is retained, the reference is appended and the count
incremented before the buffer address is resolved and before the engine
attach is attempted; a failure at either later step therefore still leaves
`dictionary_count` incremented and the appended reference among those
released by Destroy. -/
theorem attach_retains_ref_before_late_failures {σ : Type}
    (env : AttachEnv σ) (h : EncoderHandle σ) (d ref : Nat)
    (hlen : h.dictionary_refs.length = h.dictionary_count)
    (hcap : h.dictionary_count < 15)
    (href : env.newGlobalRef d = some ref)
    (hfail : env.getDirectBufferAddress ref = none ∨
      ∃ addr, env.getDirectBufferAddress ref = some addr ∧
        (env.attach h.state addr).1 = false) :
    (nativeAttachDictionary env h (some d)).1 = false ∧
    (nativeAttachDictionary env h (some d)).2.dictionary_count =
      h.dictionary_count + 1 ∧
    (nativeAttachDictionary env h (some d)).2.dictionary_refs =
      h.dictionary_refs ++ [ref] ∧
    ref ∈ nativeDestroy (nativeAttachDictionary env h (some d)).2 := by
  have hnc : ¬h.dictionary_count ≥ 15 := by omega
  have hmem : ref ∈ (h.dictionary_refs ++ [ref]).take (h.dictionary_count + 1) := by
    rw [← hlen]
    have hl2 : h.dictionary_refs.length + 1 = (h.dictionary_refs ++ [ref]).length := by
      simp
    rw [hl2, List.take_length]
    simp
  rcases hfail with haddr | ⟨addr, haddr, hatt⟩
  · have key : nativeAttachDictionary env h (some d) =
        (false, { h with dictionary_refs := h.dictionary_refs ++ [ref],
                         dictionary_count := h.dictionary_count + 1 }) := by
      simp only [nativeAttachDictionary, hnc, if_false, href, haddr]
    rw [key]
    exact ⟨rfl, rfl, rfl, hmem⟩
  · have key : nativeAttachDictionary env h (some d) =
        ((env.attach h.state addr).1,
          { h with dictionary_refs := h.dictionary_refs ++ [ref],
                   dictionary_count := h.dictionary_count + 1,
                   state := (env.attach h.state addr).2 }) := by
      simp only [nativeAttachDictionary, hnc, if_false, href, haddr]
    rw [key]
    exact ⟨hatt, rfl, rfl, hmem⟩

/-- Witness for C10: address resolution fails after the reference was
appended; the count is 1 and the reference would be released by Destroy. -/
theorem attach_retains_ref_before_late_failures_witness :
    (nativeAttachDictionary noAddrAttachEnv handleCap1 (some 1)).1 = false ∧
    (nativeAttachDictionary noAddrAttachEnv handleCap1 (some 1)).2.dictionary_count =
      handleCap1.dictionary_count + 1 ∧
    (nativeAttachDictionary noAddrAttachEnv handleCap1 (some 1)).2.dictionary_refs =
      handleCap1.dictionary_refs ++ [1] ∧
    1 ∈ nativeDestroy (nativeAttachDictionary noAddrAttachEnv handleCap1 (some 1)).2 :=
  attach_retains_ref_before_late_failures noAddrAttachEnv handleCap1 1 1
    rfl (by decide) rfl (Or.inl rfl)

/-! ## C3 -/

lemma push_preserves_inv {σ : Type} (eng : Engine σ)
    (hcontract : EngineContract eng) (h : EncoderHandle σ)
    (operation input_length : Int) (hinv : handleInv h)
    (hlen : intToSizeT input_length ≤ h.input_start.length) :
    handleInv (nativePush eng h operation input_length).handle ∧
    (nativePush eng h operation input_length).handle.input_start =
      h.input_start := by
  cases hop : decodeOp operation with
  | none =>
    rw [nativePush_error eng h operation input_length (Or.inl hop)]
    exact ⟨hinv, rfl⟩
  | some op =>
    by_cases hguard : input_length ≠ 0 ∧ h.input_offset < h.input_last
    · rw [nativePush_error eng h operation input_length (Or.inr hguard)]
      exact ⟨hinv, rfl⟩
    · rw [nativePush_main eng h operation input_length op hop hguard]
      obtain ⟨hA, hB⟩ := pushWindowReset_inv h input_length hinv hlen
      have hrem := hcontract (pushWindowReset h input_length).state op
        (pendingWindow (pushWindowReset h input_length))
      have hflen := pendingWindow_length (pushWindowReset h input_length) ⟨hA, hB⟩
      exact ⟨⟨sizeTSub_le_of_le (by omega), hB⟩,
        pushWindowReset_input_start h input_length⟩

lemma attach_preserves_window {σ : Type} (env : AttachEnv σ)
    (h : EncoderHandle σ) (d : Option Nat) :
    (nativeAttachDictionary env h d).2.input_offset = h.input_offset ∧
    (nativeAttachDictionary env h d).2.input_last = h.input_last ∧
    (nativeAttachDictionary env h d).2.input_start = h.input_start := by
  cases d with
  | none => exact ⟨rfl, rfl, rfl⟩
  | some dd =>
    by_cases hc : h.dictionary_count ≥ 15
    · simp [nativeAttachDictionary, hc]
    · cases hr : env.newGlobalRef dd with
      | none => simp [nativeAttachDictionary, hc, hr]
      | some ref =>
        cases ha : env.getDirectBufferAddress ref with
        | none => simp [nativeAttachDictionary, hc, hr, ha]
        | some addr => simp [nativeAttachDictionary, hc, hr, ha]

lemma runOps_preserves {σ : Type} (eng : Engine σ)
    (hcontract : EngineContract eng) (aenv : AttachEnv σ) (ops : List EncOp) :
    ∀ h : EncoderHandle σ, handleInv h →
      (∀ o ∈ ops, opOK h.input_start.length o) →
      handleInv (runOps eng aenv h ops) ∧
      (runOps eng aenv h ops).input_start = h.input_start := by
  induction ops with
  | nil =>
    intro h hinv _
    exact ⟨hinv, rfl⟩
  | cons o rest ih =>
    intro h hinv hops
    have htail : ∀ o' ∈ rest, opOK h.input_start.length o' := by
      intro o' ho'
      exact hops o' (List.mem_cons_of_mem _ ho')
    cases o with
    | push operation input_length =>
      have hoOK : intToSizeT input_length ≤ h.input_start.length :=
        hops _ (List.mem_cons_self _ _)
      have hstep := push_preserves_inv eng hcontract h operation input_length
        hinv hoOK
      have hrest := ih (nativePush eng h operation input_length).handle hstep.1
        (by rw [hstep.2]; exact htail)
      show handleInv
          (runOps eng aenv (nativePush eng h operation input_length).handle rest) ∧
        (runOps eng aenv (nativePush eng h operation input_length).handle
          rest).input_start = h.input_start
      exact ⟨hrest.1, by rw [hrest.2, hstep.2]⟩
    | pull =>
      have hrest := ih (nativePull eng h).handle hinv htail
      show handleInv (runOps eng aenv (nativePull eng h).handle rest) ∧
        (runOps eng aenv (nativePull eng h).handle rest).input_start =
          h.input_start
      exact ⟨hrest.1, hrest.2⟩
    | attach d =>
      obtain ⟨ho, hl, hs⟩ := attach_preserves_window aenv h d
      have hstep : handleInv (nativeAttachDictionary aenv h d).2 := by
        unfold handleInv
        rw [ho, hl, hs]
        exact hinv
      have hrest := ih (nativeAttachDictionary aenv h d).2 hstep
        (by rw [hs]; exact htail)
      show handleInv (runOps eng aenv (nativeAttachDictionary aenv h d).2 rest) ∧
        (runOps eng aenv (nativeAttachDictionary aenv h d).2 rest).input_start =
          h.input_start
      exact ⟨hrest.1, by rw [hrest.2, hs]⟩

lemma create_handle_shape {σ : Type} (env : CreateEnv σ) (input_size : Nat)
    (quality lgwin mode : Int) (h0 : EncoderHandle σ)
    (hc : (nativeCreate env input_size quality lgwin mode).handle = some h0) :
    h0.input_offset = 0 ∧ h0.input_last = 0 ∧
    h0.input_start = List.replicate input_size 0 := by
  unfold nativeCreate at hc
  by_cases hH : env.allocHandle = true
  · by_cases hz : input_size = 0
    · rw [if_neg (not_not_intro hH), if_pos hz] at hc
      exact absurd hc (by simp)
    · by_cases hB : env.allocBuffer = true
      · rw [if_neg (not_not_intro hH), if_neg hz, if_neg (not_not_intro hB)] at hc
        cases hs : env.createInstance with
        | none =>
          rw [hs] at hc
          exact absurd hc (by simp)
        | some s0 =>
          rw [hs] at hc
          simp only [Option.some.injEq] at hc
          subst hc
          exact ⟨rfl, rfl, rfl⟩
      · rw [if_neg (not_not_intro hH), if_neg hz, if_pos hB] at hc
        exact absurd hc (by simp)
  · rw [if_pos hH] at hc
    exact absurd hc (by simp)

/-- C3 counterexample: the code does not bound-check `newInputLength`
against the scratch capacity.  Starting from the handle created with
capacity 1, a single Push(Process, 5) succeeds and leaves
`input_limit = 5 > 1 = C`: the claimed invariant fails for this value of
`newInputLength`. -/
theorem push_overlong_input_breaks_invariant :
    (nativeCreate okCreateEnv 1 (-1) (-1) (-1)).handle = some handleCap1 ∧
    ¬handleInv (runOps idleEngine okAttachEnv handleCap1 [EncOp.push 0 5]) :=
  ⟨by decide, by decide⟩

/-- C3 (amended): `0 ≤ input_offset ≤ input_limit ≤ C` holds after every
operation of every Create/Push/Pull/AttachDictionary sequence, provided
every Push's `newInputLength` — after the `jint` → `size_t` conversion the
code applies when storing it into `input_limit` — is at most `C`, and the
engine honours the stream-API contract of consuming at most the bytes
offered.  (The lower bound `0 ≤ input_offset` is inherent to the unsigned
offsets.) -/
theorem runOps_preserves_input_window_invariant {σ : Type} (eng : Engine σ)
    (hcontract : EngineContract eng) (aenv : AttachEnv σ) (cenv : CreateEnv σ)
    (input_size : Nat) (quality lgwin mode : Int) (h0 : EncoderHandle σ)
    (hcreate : (nativeCreate cenv input_size quality lgwin mode).handle = some h0)
    (ops : List EncOp) (hops : ∀ o ∈ ops, opOK input_size o) :
    handleInv (runOps eng aenv h0 ops) := by
  obtain ⟨ho, hl, hs⟩ :=
    create_handle_shape cenv input_size quality lgwin mode h0 hcreate
  have hlen : h0.input_start.length = input_size := by
    rw [hs]
    exact List.length_replicate input_size 0
  have hinv0 : handleInv h0 := by
    unfold handleInv
    rw [ho, hl]
    exact ⟨Nat.le_refl 0, Nat.zero_le _⟩
  exact (runOps_preserves eng hcontract aenv ops h0 hinv0
    (by rw [hlen]; exact hops)).1

/-- Witness for the amended C3: capacity 1, one in-bounds Push. -/
theorem runOps_preserves_input_window_invariant_witness :
    handleInv (runOps idleEngine okAttachEnv handleCap1 [EncOp.push 0 1]) := by
  refine runOps_preserves_input_window_invariant idleEngine
    (fun _ _ input => Nat.zero_le input.length) okAttachEnv okCreateEnv
    1 (-1) (-1) (-1) handleCap1 (by decide) [EncOp.push 0 1] ?_
  intro o ho
  simp only [List.mem_singleton] at ho
  subst ho
  show intToSizeT 1 ≤ 1
  decide

end EncoderJNI
